import Mathlib

/-!
Shallow embedding of the covid19_scenarios sources
`src/data/scripts/R0_estimator.py` and `src/scripts/scenarios.py`.

Modelling conventions.

* numpy float values are idealised as rationals `ℚ`; a float array whose
  invalid entries are NaN, or a masked array whose data is NaN exactly at the
  masked positions, is a `MSeries := List (Option ℚ)` where `none` stands for
  an invalid entry.  Where the distinction between the stored datum and the
  mask flag of a `numpy.ma` array matters (it does for `get_growth_rate` and
  `growth_rate_to_R0`), an element is a `GElem`: `val = none` models a stored
  NaN datum (or a datum that is not a finite real, such as `-inf`), and
  `mask` models the boolean mask flag.
* the natural logarithm, the exponential, `scipy.signal.savgol_filter` and
  `scipy.stats.linregress`'s transcendental parts are external library
  functions; they are carried as explicit function parameters (`flog`,
  `fexp`, `f`) so every statement quantifies over them, and concrete
  computable stand-ins are used for witnesses and counterexamples.
* the channel-indexed data structure produced by `empty_data_list` is a
  function `Sub → Option _`; `none` is the Python `None` "absent" marker.
* Python's `a[:-k]` / `a[k:]` slices become `List.take (length - k)` /
  `List.drop k`, which agree with numpy also when `k > length` (both empty);
  all integer arithmetic is exact.
-/

namespace Covid19

/-- Channel enumeration, `Sub = IntEnum('Sub', compartments, start=0)` with
`compartments = ['S','E1','E2','E3','I','H','C','D','R','T','NUM']`
(R0_estimator.py lines 12-13); `NUM` is only the channel count and carries no
data, so it is not a constructor here. -/
inductive Sub where
  | S | E1 | E2 | E3 | I | H | C | D | R | T
deriving DecidableEq, Repr

/-- A numeric series with invalid entries: `none` is NaN / masked. -/
abbrev MSeries := List (Option ℚ)

/-- One element of a `numpy.ma` masked array with datum and mask flag kept
separate: `val = none` models a stored non-finite datum (NaN), `mask` the
mask flag. -/
structure GElem where
  val : Option ℚ
  mask : Bool
deriving DecidableEq, Repr

/-- `empty_data_list()` (lines 15-16): `np.array([])` for channels `T` and
`D`, `None` for every other channel. -/
def empty_data_list : Sub → Option MSeries :=
  fun i => if i = Sub.T ∨ i = Sub.D then some [] else none

/-- The scatter step of `smooth` (lines 24-27):
`np.put(smoothed, np.where(good_idx)[0], filtered)` writes the filtered
values back, in order, exactly at the positions that were valid in the
input; invalid positions keep their entry.  (If the value list runs out the
original entries are kept; with a length-preserving filter this never
happens, matching `np.put` on equal sizes.) -/
def scatter : MSeries → List ℚ → MSeries
  | [], _ => []
  | none :: xs, vs => none :: scatter xs vs
  | some a :: xs, [] => some a :: scatter xs []
  | some _ :: xs, v :: vs => some v :: scatter xs vs

/-- `smooth` on one channel series (lines 24-27): compact the valid values,
run the filter `f` (abstracting `scipy.signal.savgol_filter` with the chosen
window, order and interp/mirror mode) over them, scatter the result back.
`as_int` is `False` on every call reached from the pipeline, so the integer
rounding branch is not modelled. -/
def smooth_series (f : List ℚ → List ℚ) (x : MSeries) : MSeries :=
  scatter x (f (x.filterMap id))

/-- `smooth(data, ...)` (lines 18-30): deep copy, then filter each of the
channels `T`, `D`, `H`, `C` that is not `None`; all other entries of the
structure pass through unchanged. -/
def smooth (f : List ℚ → List ℚ) (data : Sub → Option MSeries) :
    Sub → Option MSeries :=
  fun i =>
    if i = Sub.T ∨ i = Sub.D ∨ i = Sub.H ∨ i = Sub.C then
      (data i).map (smooth_series f)
    else data i

/-- `np.ma.log` elementwise: masked/NaN stays invalid, a valid value `x`
becomes `flog x` (`flog` returns `none` on the values outside the domain of
the logarithm, where `np.ma.log` masks the result). -/
def maLog (flog : ℚ → Option ℚ) (s : MSeries) : MSeries :=
  s.map (fun o => o.bind flog)

/-- `get_log(data)` (lines 32-40): starts from `empty_data_list()` and fills
`np.ma.log(data[ii])` for each channel `ii` in `[T, D, H, C]` that is not
`None`.  There is no `else` branch, so a channel of `[T, D, H, C]` that is
absent in the input keeps its `empty_data_list()` entry - which for `T` and
`D` is the present empty array `np.array([])`, not `None`. -/
def get_log (flog : ℚ → Option ℚ) (data : Sub → Option MSeries) :
    Sub → Option MSeries :=
  fun i =>
    if i = Sub.T ∨ i = Sub.D ∨ i = Sub.H ∨ i = Sub.C then
      match data i with
      | some s => some (maLog flog s)
      | none => empty_data_list i
    else empty_data_list i

/-- `np.ma.exp` elementwise: total on valid values, invalid stays invalid. -/
def maExp (fexp : ℚ → ℚ) (s : MSeries) : MSeries :=
  s.map (fun o => o.map fexp)

/-- `log_smooth(data, nb_pts=7)` (lines 43-52): smooth `get_log(data)` with
a window-7 order-1 filter (abstracted by `f`) and exponentiate; like
`get_log` it starts from `empty_data_list()` and has no `else` branch in its
loop. -/
def log_smooth (flog : ℚ → Option ℚ) (fexp : ℚ → ℚ) (f : List ℚ → List ℚ)
    (data : Sub → Option MSeries) : Sub → Option MSeries :=
  fun i =>
    if i = Sub.T ∨ i = Sub.D ∨ i = Sub.H ∨ i = Sub.C then
      match smooth f (get_log flog data) i with
      | some s => some (maExp fexp s)
      | none => empty_data_list i
    else empty_data_list i

/-- One channel of `get_daily_counts` (lines 76-78):
`np.concatenate(([np.nan], np.diff(x)))`, zero differences reinterpreted as
NaN, mask set to the NaN positions (so here mask and NaN coincide and
`Option` suffices). -/
def daily_series (x : MSeries) : MSeries :=
  none ::
    ((x.drop 1).zip x).map (fun p =>
      match p.1, p.2 with
      | some u, some v => if u - v = 0 then none else some (u - v)
      | _, _ => none)

/-- `get_daily_counts(data)` (lines 69-81): channels `T` and `D` are
differenced when present and set to `None` when absent; every other channel
keeps its `empty_data_list()` entry, which is `None` for all of them. -/
def get_daily_counts (data : Sub → Option MSeries) : Sub → Option MSeries :=
  fun i =>
    if i = Sub.T ∨ i = Sub.D then (data i).map daily_series else none

/-- The masked subtraction/division of `get_growth_rate` (line 92):
`(log a - log b)/step`, invalid if either operand is invalid. -/
def maSubDiv (step : ℕ) (a b : Option ℚ) : Option ℚ :=
  match a, b with
  | some u, some v => some ((u - v) / (step : ℚ))
  | _, _ => none

/-- The masked array built by lines 92-95 of `get_growth_rate`, before the
final fill: `(np.ma.log(x[step:]) - np.ma.log(x[:-step]))/step` concatenated
with `step` masked NaN entries.  Each element records the mask flag; the
datum is `none` exactly at the masked positions (where numpy stores NaN or
another non-finite value that the later fill overwrites with NaN anyway). -/
def gr_masked (flog : ℚ → Option ℚ) (x : MSeries) (step : ℕ) : List GElem :=
  (((maLog flog (x.drop step)).zip (maLog flog (x.take (x.length - step)))).map
    (fun p => { val := maSubDiv step p.1 p.2,
                mask := (maSubDiv step p.1 p.2).isNone }))
  ++ List.replicate step { val := none, mask := true }

/-- Line 96, `log_diff[log_diff.mask] = np.nan`: assigning to the masked
positions of a (soft-masked) `numpy.ma` array stores the value *and clears
the mask there*, so after this line the datum is NaN at every previously
masked position and no position is masked any more. -/
def maFillMasked (l : List GElem) : List GElem :=
  l.map (fun e => if e.mask then { val := none, mask := false } else e)

/-- One channel of `get_growth_rate(data, step=3)` (lines 84-99). -/
def gr_series (flog : ℚ → Option ℚ) (x : MSeries) (step : ℕ) : List GElem :=
  maFillMasked (gr_masked flog x step)

/-- `get_growth_rate(data, step=3)` (lines 84-99): channels `T` and `D`
only, `None` stays `None`; all other channels keep their
`empty_data_list()` entry, i.e. `None`. -/
def get_growth_rate (flog : ℚ → Option ℚ) (data : Sub → Option MSeries)
    (step : ℕ) : Sub → Option (List GElem) :=
  fun i =>
    if i = Sub.T ∨ i = Sub.D then
      (data i).map (fun s => gr_series flog s step)
    else none

/-- `np.interp(x, xp, fp)` for a table of `(xp, fp)` pairs with strictly
increasing `xp`: clamp to the first value left of the domain, to the last
value right of it, linear interpolation on each inner segment.  (`np.interp`
requires a nonempty table; the `[]` case returns a junk value and every
statement about `interp` assumes a nonempty table.) -/
def interp (x : ℚ) : List (ℚ × ℚ) → ℚ
  | [] => 0
  | [p] => p.2
  | p :: q :: rest =>
    if x ≤ p.1 then p.2
    else if x ≤ q.1 then p.2 + (q.2 - p.2) * (x - p.1) / (q.1 - p.1)
    else interp x (q :: rest)

/-- One channel of `growth_rate_to_R0` (lines 62-63):
`np.ma.array(np.interp(data, GR_mapping, R0s_mapping))` followed by
`mask = np.isnan(...)`.  `np.interp` reads the raw data of its input
(masks are dropped by `np.asarray`), NaN propagates to NaN, and the mask of
the result is rebuilt as exactly the NaN positions - so the output is again
an array where mask and NaN coincide and `Option` suffices. -/
def interp_series (tbl : List (ℚ × ℚ)) (s : List GElem) : MSeries :=
  s.map (fun e => e.val.map (fun x => interp x tbl))

/-- `growth_rate_to_R0(data)` (lines 55-66).  The calibration table
`(GR_mapping, R0s_mapping)` comes from `scripts/mapping`, which is not part
of the sources; modelled from the spec: an immutable ordered list of
`(growth_rate, R0)` pairs, monotonic in the growth rate, carried as the
parameter `tbl`. -/
def growth_rate_to_R0 (tbl : List (ℚ × ℚ)) (data : Sub → Option (List GElem)) :
    Sub → Option MSeries :=
  fun i =>
    if i = Sub.T ∨ i = Sub.D then (data i).map (interp_series tbl) else none

/-- `np.mean` of a list of rationals.  (numpy's mean of an empty selection
is NaN; the statements below only use nonempty selections.) -/
def qmean (l : List ℚ) : ℚ := l.sum / (l.length : ℚ)

/-- Python `v[-n:]` for `n ≥ 1`: the last `min n (length v)` elements. -/
def lastN (n : ℕ) (l : List ℚ) : List ℚ := l.drop (l.length - n)

/-- `stair_func(time, val_o, val_e, x_drop)` (lines 102-103). -/
def stair_func (time : List ℚ) (vo ve x : ℚ) : List ℚ :=
  time.map (fun t => if t ≤ x then vo else ve)

/-- `err_function(x_drop, time, vec, val_o, val_e)` (lines 106-108):
`np.sum(np.abs(vec - stair_func(...)))` on a masked `vec` - masked entries
are excluded from the sum. -/
def err_function (x : ℚ) (time : List ℚ) (vec : MSeries) (vo ve : ℚ) : ℚ :=
  ((vec.zip (stair_func time vo ve x)).filterMap
    (fun p => p.1.map (fun v => |v - p.2|))).sum

/-- `np.argmin` on a list: index of the first occurrence of the minimum. -/
def idxOfMin : List ℚ → ℕ
  | [] => 0
  | [_] => 0
  | a :: b :: rest =>
    if a ≤ (b :: rest).getD (idxOfMin (b :: rest)) 0 then 0
    else idxOfMin (b :: rest) + 1

/-- The per-channel body of `stair_fits` (lines 121-123): edge means over
the unmasked values, then brute-force breakpoint search
`time[np.argmin([err_function(x, ...) for x in time])]`. -/
def stair_fit_series (time : List ℚ) (vec : MSeries) (nb : ℕ) : ℚ × ℚ × ℚ :=
  (qmean ((vec.filterMap id).take nb),
   qmean (lastN nb (vec.filterMap id)),
   time.getD
     (idxOfMin (time.map (fun x =>
       err_function x time vec (qmean ((vec.filterMap id).take nb))
         (qmean (lastN nb (vec.filterMap id)))))) 0)

/-- `stair_fits(time, data, nb_value=3)` (lines 117-127): channels `T`, `D`,
`H`, `C` when present, `None` when absent; the remaining channels keep their
`empty_data_list()` entry, `None` for all of them. -/
def stair_fits (time : List ℚ) (data : Sub → Option MSeries) (nb : ℕ) :
    Sub → Option (ℚ × ℚ × ℚ) :=
  fun i =>
    if i = Sub.T ∨ i = Sub.D ∨ i = Sub.H ∨ i = Sub.C then
      (data i).map (fun v => stair_fit_series time v nb)
    else none

/-- `combine_fits(fits, drop_shift=9)` (lines 143-160).  The three agreement
tests are the source's float comparisons read over exact arithmetic; a test
whose denominator `0.5*(a+b)` is zero is false in the source (the float
quotient is `inf` or NaN, and neither satisfies `<`), hence the explicit
`≠ 0` conjuncts. -/
def combine_fits (fits : Sub → Option (ℚ × ℚ × ℚ)) (drop_shift : ℕ) :
    Option (ℚ × ℚ × ℚ) :=
  match fits Sub.T with
  | none => none
  | some fT =>
    match fits Sub.D with
    | none => some fT
    | some fD =>
      if (fT.1 + fD.1 ≠ 0 ∧
            |fT.1 - fD.1| / ((1 : ℚ)/2 * (fT.1 + fD.1)) < 2/5) ∧
         (fT.2.1 + fD.2.1 ≠ 0 ∧
            |fT.2.1 - fD.2.1| / ((1 : ℚ)/2 * (fT.2.1 + fD.2.1)) < 3/10) ∧
         |(fD.2.2 - (drop_shift : ℚ)) - fT.2.2| < ((drop_shift / 2 + 1 : ℕ) : ℚ)
      then
        some ((1 : ℚ)/2 * (fT.1 + fD.1),
              (1 : ℚ)/2 * (fT.2.1 + fD.2.1),
              (1 : ℚ)/2 * (fT.2.2 + (fD.2.2 - (drop_shift : ℚ))))
      else some fT

/-- A value of the dictionary returned by `get_Re_guess`: the combined fit
under key `"fit"`, a channel-indexed series structure under the other three
keys. -/
inductive ReVal where
  | fitv : Option (ℚ × ℚ × ℚ) → ReVal
  | series : (Sub → Option MSeries) → ReVal

/-- `get_Re_guess(time, cases, step=4, extremal_points=7)` (lines 129-141):
the pipeline `get_daily_counts → log_smooth → get_growth_rate →
growth_rate_to_R0 → stair_fits → combine_fits`, returned as the dictionary
`{"fit": ..., "diff_data": ..., "diff_data_smoothed": ..., "R0_by_day": ...}`
modelled as an association list in insertion order. -/
def get_Re_guess (flog : ℚ → Option ℚ) (fexp : ℚ → ℚ) (f : List ℚ → List ℚ)
    (tbl : List (ℚ × ℚ)) (time : List ℚ) (cases : Sub → Option MSeries)
    (step nb : ℕ) : List (String × ReVal) :=
  [("fit",
     ReVal.fitv (combine_fits
       (stair_fits time
         (growth_rate_to_R0 tbl
           (get_growth_rate flog (log_smooth flog fexp f (get_daily_counts cases)) step))
         nb) 9)),
   ("diff_data", ReVal.series (get_daily_counts cases)),
   ("diff_data_smoothed", ReVal.series (log_smooth flog fexp f (get_daily_counts cases))),
   ("R0_by_day", ReVal.series (growth_rate_to_R0 tbl
     (get_growth_rate flog (log_smooth flog fexp f (get_daily_counts cases)) step)))]

/-! `src/scripts/scenarios.py`, the `Fitter` class. -/

/-- Python `int()` on a rational: truncation toward zero. -/
def pyInt (q : ℚ) : ℤ := q.num / q.den

/-- `datetime.fromordinal` (proleptic Gregorian calendar, ordinal 1 =
0001-01-01) as year/month/day; days-to-civil algorithm over exact integers.
`datetime.fromordinal` raises for ordinals outside `[1, maxordinal]`; the
model is total and no statement depends on values outside that range. -/
def civilFromOrdinal (n : ℤ) : ℤ × ℕ × ℕ :=
  let w : ℤ := n + 305
  let era : ℤ := Int.fdiv w 146097
  let doe : ℕ := (w - era * 146097).toNat
  let yoe : ℕ := (doe - doe / 1460 + doe / 36524 - doe / 146096) / 365
  let doy : ℕ := doe - (365 * yoe + yoe / 4 - yoe / 100)
  let mp : ℕ := (5 * doy + 2) / 153
  let d : ℕ := doy - (153 * mp + 2) / 5 + 1
  let m : ℕ := if mp < 10 then mp + 3 else mp - 9
  ((yoe : ℤ) + era * 400 + (if m ≤ 2 then 1 else 0), m, d)

/-- Zero-padded decimal rendering of width 2. -/
def pad2 (n : ℕ) : String := if n < 10 then "0" ++ toString n else toString n

/-- Zero-padded decimal rendering of width 4 (years in range are ≤ 9999). -/
def pad4 (n : ℤ) : String :=
  if n < 0 then "-" ++ toString (-n)
  else if n < 10 then "000" ++ toString n
  else if n < 100 then "00" ++ toString n
  else if n < 1000 then "0" ++ toString n
  else toString n

/-- `from_ms(time)` (scenarios.py lines 62-64):
`datetime.fromordinal(int(time))` rendered as `f"{y:04d}-{m:02d}-{d:02d}"`. -/
def from_ms (q : ℚ) : String :=
  pad4 (civilFromOrdinal (pyInt q)).1 ++ "-" ++
    pad2 (civilFromOrdinal (pyInt q)).2.1 ++ "-" ++
    pad2 (civilFromOrdinal (pyInt q)).2.2

/-- The record returned by `Fitter.fit`:
`{'tMin': date-string, 'initialCases': int, 'r0': float}`. -/
structure FitRec where
  tMin : String
  initialCases : ℤ
  r0 : ℚ
deriving DecidableEq, Repr

/-- The record returned by `fit_cumulative` (scenarios.py lines 47-55).
`rvalue` is stored by the source but never read, and its value involves a
square root, so it is not carried. -/
structure RegRes where
  intercept : ℚ
  slope : ℚ
deriving DecidableEq, Repr

/-- One row of the population table handed to `Fitter.fit`, after the date
string has been parsed by `to_ms` (`datetime.strptime(...).toordinal()`,
external): ordinal day, case count, death count (`None` for a missing
field). -/
structure CPoint where
  t : ℚ
  cases : Option ℚ
  deaths : Option ℚ

/-- `dp['cases'] or np.nan` (line 69): `None` and `0` both become NaN. -/
def orNaN (o : Option ℚ) : Option ℚ :=
  o.bind (fun v => if v = 0 then none else some v)

/-- The `good_ind = (y > 3) & (y < 500)` selection of `fit_cumulative`
(line 41), keeping `(t, y)`; a NaN count compares false on both sides and is
dropped. -/
def goodOf (pts : List (ℚ × Option ℚ)) : List (ℚ × ℚ) :=
  pts.filterMap (fun p =>
    p.2.bind (fun v => if 3 < v ∧ v < 500 then some (p.1, v) else none))

/-- `scipy.stats.linregress` slope and intercept over exact arithmetic
(least squares on the given points).  With zero variance scipy produces a
NaN slope while the exact quotient is `0/0 = 0`; both fail the only test
`slope > 0` applied to it, so the difference is unobservable here. -/
def linreg (pts : List (ℚ × ℚ)) : RegRes :=
  { intercept := qmean (pts.map Prod.snd) -
      (((pts.map (fun p => (p.1 - qmean (pts.map Prod.fst)) * (p.2 - qmean (pts.map Prod.snd)))).sum) /
        ((pts.map (fun p => (p.1 - qmean (pts.map Prod.fst)) ^ 2)).sum)) * qmean (pts.map Prod.fst),
    slope := (((pts.map (fun p => (p.1 - qmean (pts.map Prod.fst)) * (p.2 - qmean (pts.map Prod.snd)))).sum) /
        ((pts.map (fun p => (p.1 - qmean (pts.map Prod.fst)) ^ 2)).sum)) }

/-- `Fitter.fixed_slope = np.log(2)/doubling_time` with `doubling_time = 3`. -/
def fixed_slope (flog : ℚ → ℚ) : ℚ := flog 2 / 3

/-- `fit_cumulative(t, y)` (scenarios.py lines 40-57): more than 10 good
points - least squares on `(t, log y)`; 5 to 10 good points - fixed slope
with a mean-matched intercept; fewer than 5 - `None`. -/
def fit_cumulative (flog : ℚ → ℚ) (pts : List (ℚ × Option ℚ)) : Option RegRes :=
  if 10 < (goodOf pts).length then
    some (linreg ((goodOf pts).map (fun p => (p.1, flog p.2))))
  else if 4 < (goodOf pts).length then
    some { intercept :=
             qmean (((goodOf pts).map (fun p => (p.1, flog p.2))).map Prod.snd) -
               qmean ((goodOf pts).map Prod.fst) * fixed_slope flog,
           slope := 1 * fixed_slope flog }
  else none

namespace Fitter

def doubling_time : ℚ := 3
def serial_interval : ℚ := 15/2
def cases_on_tMin : ℤ := 10
def under_reporting : ℚ := 5
def delay : ℚ := 18
def fatality_rate : ℚ := 1/50

/-- `Fitter.slope_to_r0` (line 33-34): `1 + slope*serial_interval`. -/
def slope_to_r0 (slope : ℚ) : ℚ := 1 + slope * serial_interval

/-- The death column `data[:,2]` of the body of `Fitter.fit` (line 69). -/
def deathsCol (pop : List CPoint) : List (ℚ × Option ℚ) :=
  pop.map (fun dp => (dp.t, orNaN dp.deaths))

/-- The case column `data[:,1]` of the body of `Fitter.fit` (line 69). -/
def casesCol (pop : List CPoint) : List (ℚ × Option ℚ) :=
  pop.map (fun dp => (dp.t, orNaN dp.cases))

/-- The case-count fallback branch of `Fitter.fit` (lines 76-80). -/
def caseTry (flog : ℚ → ℚ) (pop : List CPoint) : Option FitRec :=
  match fit_cumulative flog (casesCol pop) with
  | some p =>
    if 0 < p.slope then
      some { tMin := from_ms ((flog 10 / under_reporting - p.intercept) / p.slope),
             initialCases := cases_on_tMin,
             r0 := slope_to_r0 p.slope }
    else none
  | none => none

/-- `Fitter.fit(pop)` (scenarios.py lines 36-82).  The body first assembles
`data = np.array([...])` (line 69) and slices its columns `data[:,0]`,
`data[:,1]`, `data[:,2]` (lines 72, 77): on an empty `pop` the assembled
array has shape `(0,)`, is 1-dimensional, and the column slice raises
`IndexError` - the `Except.error` branch.  Otherwise: fit the death column
first; use it when it exists and has positive slope; fall back to the case
column; `None` when neither works. -/
def fit (flog : ℚ → ℚ) (pop : List CPoint) : Except String (Option FitRec) :=
  match pop with
  | [] => Except.error "IndexError"
  | _ :: _ =>
    Except.ok
      (match fit_cumulative flog (deathsCol pop) with
       | some p =>
         if 0 < p.slope then
           some { tMin := from_ms ((flog (10 * fatality_rate) - p.intercept) / p.slope - delay),
                  initialCases := cases_on_tMin,
                  r0 := slope_to_r0 p.slope }
         else caseTry flog pop
       | none => caseTry flog pop)

end Fitter

/-! Concrete stand-ins and concrete inputs used by witnesses and
counterexamples. -/

/-- A computable logarithm-like stand-in for `np.ma.log`'s scalar function:
defined exactly on the positive rationals.  Its values are irrelevant to
every statement that uses it. -/
def idlog (q : ℚ) : Option ℚ := if 0 < q then some q else none

/-- A channel structure whose every channel is absent. -/
def allAbsent : Sub → Option MSeries := fun _ => none

/-- Population rows for the C9 witness: one data point whose counts (1) lie
outside the strictly-between-3-and-500 band, so both channels have fewer
than 5 usable points. -/
def popW : List CPoint :=
  [{ t := 737500, cases := some 1, deaths := some 1 }]

/-- Channel structure for the C4 witness: a present cumulative `T` series. -/
def dataW4 : Sub → Option MSeries :=
  fun i => if i = Sub.T then some [some 1, some 3, some 3, some 6] else none

/-- Channel structure for the C4 witness: a cumulative `D` series that grows
by 5 every day. -/
def dataW5 : Sub → Option MSeries :=
  fun i => if i = Sub.D then some [some 0, some 5, some 10] else none

/-- Channel structure for the C4 counterexample: `T` present but empty, the
default contents of `empty_data_list()`. -/
def dataEmptyT : Sub → Option MSeries :=
  fun i => if i = Sub.T then some [] else none

/-- The list `[err_function(x, time, vec, val_o, val_e) for x in time]` that
`stair_fits` minimises over (line 123), with `val_o`/`val_e` the edge means
of the valid values. -/
def errsOf (time : List ℚ) (vec : MSeries) (nb : ℕ) : List ℚ :=
  time.map (fun x =>
    err_function x time vec (qmean ((vec.filterMap id).take nb))
      (qmean (lastN nb (vec.filterMap id))))

/-- Channel structure for the C2 witness: a present `T` series shaped like a
step from 4 down to 1. -/
def stairDataW : Sub → Option MSeries :=
  fun i => if i = Sub.T then some [some 4, some 4, some 1] else none

/-- Calibration table for the C5 witness: three knots, strictly increasing
growth rates. -/
def tblW : List (ℚ × ℚ) := [(0, 1), (2, 5), (3, 9)]

/-- Growth-rate structure for the C5 witness: a present `T` channel with one
valid and one NaN element (as produced by `get_growth_rate`: mask cleared,
NaN data at invalid positions). -/
def gdataW : Sub → Option (List GElem) :=
  fun i => if i = Sub.T then
    some [{ val := some 2, mask := false }, { val := none, mask := false }]
  else none

/-- Fit structure for the C1 witness: the spec's first `FitCombiner` example,
`fit_T = (2.0, 1.0, 30)`, `fit_D = (2.1, 1.05, 39)`. -/
def fitsW1 : Sub → Option (ℚ × ℚ × ℚ) :=
  fun i => if i = Sub.T then some (2, 1, 30)
    else if i = Sub.D then some (21/10, 21/20, 39) else none

/-- Fit structure for the C1 witness: the spec's second `FitCombiner`
example, `fit_T = (2.0, 1.0, 30)`, `fit_D = (2.0, 1.0, 50)`. -/
def fitsW2 : Sub → Option (ℚ × ℚ × ℚ) :=
  fun i => if i = Sub.T then some (2, 1, 30)
    else if i = Sub.D then some (2, 1, 50) else none

/-!  Theorems.  Each claim `Cn` of the specification gets one theorem
(`Cn_...`), with a witness instantiation and, for the corrected claims, a
concrete counterexample to the claim as originally stated. -/

/-- C1: `combine_fits(fit_T, fit_D, delay_shift)` returns `None` when
`fit_T` is absent; returns `fit_T` unchanged when `fit_D` is absent; when
both are present it averages the two fits (death breakpoint shifted by
`delay_shift`) exactly when the three agreement tests
`|oT-oD|/(0.5(oT+oD)) < 0.4`, `|eT-eD|/(0.5(eT+eD)) < 0.3` and
`|(dD-delay_shift)-dT| < delay_shift//2 + 1` all hold (a test with a zero
denominator holds for neither float nor exact arithmetic), and returns
`fit_T` unchanged otherwise. -/
theorem C1_combine_fits (fits : Sub → Option (ℚ × ℚ × ℚ)) (fT fD : ℚ × ℚ × ℚ)
    (drop_shift : ℕ) :
    (fits Sub.T = none → combine_fits fits drop_shift = none) ∧
    (fits Sub.T = some fT → fits Sub.D = none →
      combine_fits fits drop_shift = some fT) ∧
    (fits Sub.T = some fT → fits Sub.D = some fD →
      ((fT.1 + fD.1 ≠ 0 ∧ |fT.1 - fD.1| / ((1 : ℚ)/2 * (fT.1 + fD.1)) < 2/5) ∧
       (fT.2.1 + fD.2.1 ≠ 0 ∧
         |fT.2.1 - fD.2.1| / ((1 : ℚ)/2 * (fT.2.1 + fD.2.1)) < 3/10) ∧
       |(fD.2.2 - (drop_shift : ℚ)) - fT.2.2| < ((drop_shift / 2 + 1 : ℕ) : ℚ)) →
      combine_fits fits drop_shift =
        some ((1 : ℚ)/2 * (fT.1 + fD.1), (1 : ℚ)/2 * (fT.2.1 + fD.2.1),
              (1 : ℚ)/2 * (fT.2.2 + (fD.2.2 - (drop_shift : ℚ))))) ∧
    (fits Sub.T = some fT → fits Sub.D = some fD →
      ¬ ((fT.1 + fD.1 ≠ 0 ∧ |fT.1 - fD.1| / ((1 : ℚ)/2 * (fT.1 + fD.1)) < 2/5) ∧
         (fT.2.1 + fD.2.1 ≠ 0 ∧
           |fT.2.1 - fD.2.1| / ((1 : ℚ)/2 * (fT.2.1 + fD.2.1)) < 3/10) ∧
         |(fD.2.2 - (drop_shift : ℚ)) - fT.2.2| < ((drop_shift / 2 + 1 : ℕ) : ℚ)) →
      combine_fits fits drop_shift = some fT) := by
  refine ⟨fun hT => ?_, fun hT hD => ?_, fun hT hD ht => ?_, fun hT hD ht => ?_⟩
  · simp [combine_fits, hT]
  · simp [combine_fits, hT, hD]
  · simp only [combine_fits, hT, hD]
    rw [if_pos ht]
  · simp only [combine_fits, hT, hD]
    rw [if_neg ht]

/-- C1 witness: on the spec's examples, with `delay_shift = 9`, the first
pair of fits passes all three tests and combines to breakpoint 30, and the
second pair (death breakpoint 50) leaves `fit_T` unchanged. -/
theorem C1_combine_fits_witness :
    combine_fits fitsW1 9 = some (41/20, 41/40, 30) ∧
    combine_fits fitsW2 9 = some (2, 1, 30) := by
  constructor
  · have ht1 : |(2 : ℚ) - 21/10| / ((1 : ℚ)/2 * (2 + 21/10)) < 2/5 := by
      rw [show (2 : ℚ) - 21/10 = -(1/10) by norm_num, abs_neg,
        abs_of_nonneg (by norm_num : (0 : ℚ) ≤ 1/10)]
      norm_num
    have ht2 : |(1 : ℚ) - 21/20| / ((1 : ℚ)/2 * (1 + 21/20)) < 3/10 := by
      rw [show (1 : ℚ) - 21/20 = -(1/20) by norm_num, abs_neg,
        abs_of_nonneg (by norm_num : (0 : ℚ) ≤ 1/20)]
      norm_num
    have ht3 : |((39 : ℚ) - ((9 : ℕ) : ℚ)) - 30| < (((9 : ℕ) / 2 + 1 : ℕ) : ℚ) := by
      norm_num
    have h := (C1_combine_fits fitsW1 (2, 1, 30) (21/10, 21/20, 39) 9).2.2.1
      (by simp [fitsW1]) (by simp [fitsW1]) ⟨⟨by norm_num, ht1⟩, ⟨by norm_num, ht2⟩, ht3⟩
    rw [h]
    norm_num
  · have hno : ¬ ((((2 : ℚ) + 2 ≠ 0) ∧ |(2 : ℚ) - 2| / ((1 : ℚ)/2 * (2 + 2)) < 2/5) ∧
        (((1 : ℚ) + 1 ≠ 0) ∧ |(1 : ℚ) - 1| / ((1 : ℚ)/2 * (1 + 1)) < 3/10) ∧
        |((50 : ℚ) - ((9 : ℕ) : ℚ)) - 30| < (((9 : ℕ) / 2 + 1 : ℕ) : ℚ)) := by
      intro h
      have h3 := h.2.2
      rw [show ((50 : ℚ) - ((9 : ℕ) : ℚ)) - 30 = 11 by norm_num,
        abs_of_nonneg (by norm_num : (0 : ℚ) ≤ 11)] at h3
      norm_num at h3
    exact (C1_combine_fits fitsW2 (2, 1, 30) (2, 1, 50) 9).2.2.2
      (by simp [fitsW2]) (by simp [fitsW2]) hno

/-- C8: for every input, the dictionary returned by `get_Re_guess` holds the
single combined fit under the key `"fit"` and has no key `"fits"`; the
lookup `res["fits"]` performed per country by `get_R0_comparison` therefore
never finds a key in the returned structure. -/
theorem C8_fit_key (flog : ℚ → Option ℚ) (fexp : ℚ → ℚ) (f : List ℚ → List ℚ)
    (tbl : List (ℚ × ℚ)) (time : List ℚ) (cases : Sub → Option MSeries)
    (step nb : ℕ) :
    (get_Re_guess flog fexp f tbl time cases step nb).lookup "fits" = none ∧
    (get_Re_guess flog fexp f tbl time cases step nb).lookup "fit" =
      some (ReVal.fitv (combine_fits
        (stair_fits time
          (growth_rate_to_R0 tbl
            (get_growth_rate flog (log_smooth flog fexp f (get_daily_counts cases)) step))
          nb) 9)) := by
  constructor <;> rfl

/-- C6 (amended): every transform of the pipeline keeps an absent channel
absent, with the exception of `get_log` (and hence `log_smooth`, which is
built on it): those two turn an absent `T` or `D` channel into the present
empty array that `empty_data_list` pre-places there, because their fill
loops have no `else` branch.  Absent `H` and `C` channels are preserved by
every transform. -/
theorem C6_absent_propagation (ch : Sub) :
    (∀ (f : List ℚ → List ℚ) (data : Sub → Option MSeries),
      data ch = none → smooth f data ch = none) ∧
    (∀ (flog : ℚ → Option ℚ) (data : Sub → Option MSeries),
      data ch = none → ch ≠ Sub.T → ch ≠ Sub.D → get_log flog data ch = none) ∧
    (∀ (flog : ℚ → Option ℚ) (data : Sub → Option MSeries),
      data ch = none → (ch = Sub.T ∨ ch = Sub.D) →
      get_log flog data ch = some []) ∧
    (∀ (flog : ℚ → Option ℚ) (fexp : ℚ → ℚ) (f : List ℚ → List ℚ)
      (data : Sub → Option MSeries),
      data ch = none → ch ≠ Sub.T → ch ≠ Sub.D →
      log_smooth flog fexp f data ch = none) ∧
    (∀ (flog : ℚ → Option ℚ) (fexp : ℚ → ℚ) (f : List ℚ → List ℚ)
      (data : Sub → Option MSeries),
      data ch = none → (ch = Sub.T ∨ ch = Sub.D) →
      log_smooth flog fexp f data ch = some []) ∧
    (∀ data : Sub → Option MSeries,
      data ch = none → get_daily_counts data ch = none) ∧
    (∀ (flog : ℚ → Option ℚ) (data : Sub → Option MSeries) (step : ℕ),
      data ch = none → get_growth_rate flog data step ch = none) ∧
    (∀ (tbl : List (ℚ × ℚ)) (data : Sub → Option (List GElem)),
      data ch = none → growth_rate_to_R0 tbl data ch = none) ∧
    (∀ (time : List ℚ) (data : Sub → Option MSeries) (nb : ℕ),
      data ch = none → stair_fits time data nb ch = none) := by
  refine ⟨?_, ?_, ?_, ?_, ?_, ?_, ?_, ?_, ?_⟩
  · intro f data h
    simp only [smooth, h]
    split <;> simp
  · intro flog data h hT hD
    simp only [get_log, h, empty_data_list]
    split <;> simp [hT, hD]
  · intro flog data h hTD
    rcases hTD with h1 | h1 <;> subst h1 <;>
      simp [get_log, h, empty_data_list]
  · intro flog fexp f data h hT hD
    simp only [log_smooth, smooth, get_log, h, empty_data_list]
    split <;> simp [hT, hD]
  · intro flog fexp f data h hTD
    rcases hTD with h1 | h1 <;> subst h1 <;>
      simp [log_smooth, smooth, get_log, h, empty_data_list, smooth_series,
        scatter, maExp]
  · intro data h
    simp only [get_daily_counts, h]
    split <;> simp
  · intro flog data step h
    simp only [get_growth_rate, h]
    split <;> simp
  · intro tbl data h
    simp only [growth_rate_to_R0, h]
    split <;> simp
  · intro time data nb h
    simp only [stair_fits, h]
    split <;> simp

/-- `scatter` never changes the number of entries. -/
theorem scatter_length (x : MSeries) (vs : List ℚ) :
    (scatter x vs).length = x.length := by
  induction x generalizing vs with
  | nil => rfl
  | cons a xs ih =>
    cases a with
    | none => simp [scatter, ih]
    | some b =>
      cases vs with
      | nil => simp [scatter, ih]
      | cons v vt => simp [scatter, ih]

/-- `scatter` keeps an entry invalid exactly where the input was invalid. -/
theorem scatter_isNone (x : MSeries) (vs : List ℚ) (i : ℕ) :
    ((scatter x vs).getD i none).isNone = ((x.getD i none)).isNone := by
  induction x generalizing vs i with
  | nil => rfl
  | cons a xs ih =>
    cases a with
    | none =>
      cases i with
      | zero => simp [scatter]
      | succ k => simp only [scatter, List.getD_cons_succ]; exact ih vs k
    | some b =>
      cases vs with
      | nil =>
        cases i with
        | zero => simp [scatter]
        | succ k => simp only [scatter, List.getD_cons_succ]; exact ih [] k
      | cons v vt =>
        cases i with
        | zero => simp [scatter]
        | succ k => simp only [scatter, List.getD_cons_succ]; exact ih vt k

/-- When the value list has exactly one value per valid input position (as
with a length-preserving filter), the valid positions of the scattered
output carry exactly those values, in order. -/
theorem scatter_filterMap (x : MSeries) (vs : List ℚ)
    (h : vs.length = (x.filterMap id).length) :
    (scatter x vs).filterMap id = vs := by
  induction x generalizing vs with
  | nil =>
    have hvs : vs = [] := List.length_eq_zero.mp (by simpa using h)
    simp [scatter, hvs]
  | cons a xs ih =>
    cases a with
    | none =>
      simp only [List.filterMap_cons, id] at h
      simpa [scatter] using ih vs (by simpa using h)
    | some b =>
      cases vs with
      | nil => simp [List.filterMap_cons, id] at h
      | cons v vt =>
        simp only [List.filterMap_cons, id, List.length_cons,
          Nat.succ.injEq] at h
        simp only [scatter, List.filterMap_cons, id]
        simpa using ih vt h

/-- Index lookup in a zipped list in terms of the two components. -/
theorem getElem?_zip' {α β : Type} (l : List α) (l' : List β) (i : ℕ) :
    (l.zip l')[i]? = (l[i]?).bind (fun a => (l'[i]?).map (fun b => (a, b))) := by
  induction l generalizing l' i with
  | nil => simp
  | cons a t ih =>
    cases l' with
    | nil => simp
    | cons b t' =>
      cases i with
      | zero => simp
      | succ k => simpa using ih t' k

/-- C7: `smooth` preserves the length of a present series; an entry of the
output is invalid exactly where the input entry was invalid (so missing
positions keep their missing entry, and a series with no missing value gets
no new missing positions); the filtered values are written back, in order,
exactly at the input-valid positions; and absent channels pass through
unchanged.  `f` abstracts `savgol_filter` with the chosen window, order and
edge mode, assumed length-preserving (which `savgol_filter` is whenever it
returns at all). -/
theorem C7_smooth_frame (f : List ℚ → List ℚ)
    (hlen : ∀ l, (f l).length = l.length) (x : MSeries) :
    (smooth_series f x).length = x.length ∧
    (∀ i : ℕ,
      ((smooth_series f x).getD i none).isNone = ((x.getD i none)).isNone) ∧
    (smooth_series f x).filterMap id = f (x.filterMap id) ∧
    (∀ (data : Sub → Option MSeries) (ch : Sub),
      data ch = none → smooth f data ch = none) := by
  refine ⟨scatter_length x _, fun i => scatter_isNone x _ i,
    scatter_filterMap x _ (hlen _), fun data ch h => ?_⟩
  simp only [smooth, h]
  split <;> simp

/-- C7 witness: the identity filter on a concrete series with one missing
value, and an absent channel. -/
theorem C7_smooth_frame_witness :
    (smooth_series id [some 1, none, some 2]).length = 3 ∧
    ((smooth_series id [some 1, none, some 2]).getD 1 none).isNone = true ∧
    smooth id allAbsent Sub.H = none := by
  refine ⟨?_, ?_, ?_⟩
  · exact (C7_smooth_frame id (fun l => rfl) [some 1, none, some 2]).1
  · have h := (C7_smooth_frame id (fun l => rfl) [some 1, none, some 2]).2.1 1
    simpa using h
  · exact (C7_smooth_frame id (fun l => rfl) []).2.2.2 allAbsent Sub.H rfl

/-- C6 counterexample: the claim as stated is false - on an input whose `T`
channel is absent, `get_log` returns the present empty array for `T`, not
the absent marker. -/
theorem C6_get_log_cex :
    allAbsent Sub.T = none ∧ get_log idlog allAbsent Sub.T = some [] := by
  constructor <;> rfl

/-- C6 witness: the amended propagation applied at concrete channels and
inputs. -/
theorem C6_absent_propagation_witness :
    smooth id allAbsent Sub.T = none ∧
    get_log idlog allAbsent Sub.H = none ∧
    get_daily_counts allAbsent Sub.D = none ∧
    stair_fits [] allAbsent 3 Sub.C = none := by
  refine ⟨?_, ?_, ?_, ?_⟩
  · exact (C6_absent_propagation Sub.T).1 id allAbsent rfl
  · exact (C6_absent_propagation Sub.H).2.1 idlog allAbsent rfl
      (by decide) (by decide)
  · exact (C6_absent_propagation Sub.D).2.2.2.2.2.1 allAbsent rfl
  · exact (C6_absent_propagation Sub.C).2.2.2.2.2.2.2.2 [] allAbsent 3 rfl

/-- C4 (amended with nonemptiness): on a present, nonempty cumulative `T` or
`D` series, `get_daily_counts` returns a series of the same length whose
first entry is invalid, whose entry at `t > 0` is
`cumulative[t] - cumulative[t-1]`, with every zero difference reinterpreted
as invalid; on a series increasing by a constant `k > 0` every position
after the first carries `k`.  (On an *empty* present series the output is
`[nan]`, of length 1 - see the counterexample.) -/
theorem C4_get_daily_counts (data : Sub → Option MSeries) (ch : Sub)
    (x : MSeries) (hch : ch = Sub.T ∨ ch = Sub.D) (hdata : data ch = some x)
    (hne : x ≠ []) :
    get_daily_counts data ch = some (daily_series x) ∧
    (daily_series x).length = x.length ∧
    (daily_series x).getD 0 none = none ∧
    (∀ (t : ℕ) (u v : ℚ), 1 ≤ t → x[t]? = some (some u) →
      x[t-1]? = some (some v) →
      (daily_series x)[t]? = some (if u - v = 0 then none else some (u - v))) ∧
    (∀ k : ℚ, 0 < k →
      (∀ t : ℕ, t + 1 < x.length →
        ∃ u v : ℚ, x[t+1]? = some (some u) ∧ x[t]? = some (some v) ∧ u - v = k) →
      ∀ t : ℕ, 1 ≤ t → t < x.length → (daily_series x)[t]? = some (some k)) := by
  have helem : ∀ (t : ℕ) (u v : ℚ), 1 ≤ t → x[t]? = some (some u) →
      x[t-1]? = some (some v) →
      (daily_series x)[t]? = some (if u - v = 0 then none else some (u - v)) := by
    intro t u v ht hu hv
    obtain ⟨j, rfl⟩ : ∃ j, t = j + 1 := ⟨t - 1, by omega⟩
    have hu' : x[1 + j]? = some (some u) := by rwa [Nat.add_comm]
    have hv' : x[j]? = some (some v) := by simpa using hv
    simp [daily_series, getElem?_zip', List.getElem?_drop, hu, hu', hv']
  refine ⟨?_, ?_, rfl, helem, ?_⟩
  · rcases hch with h | h <;> subst h <;> simp [get_daily_counts, hdata]
  · have hlen : 1 ≤ x.length := List.length_pos.mpr hne
    simp only [daily_series, List.length_cons, List.length_map,
      List.length_zip, List.length_drop]
    omega
  · intro k hk hconst t ht htl
    obtain ⟨j, rfl⟩ : ∃ j, t = j + 1 := ⟨t - 1, by omega⟩
    obtain ⟨u, v, hu, hv, huv⟩ := hconst j htl
    have h := helem (j + 1) u v (by omega) hu (by simpa using hv)
    rw [huv] at h
    rw [h, if_neg (by exact ne_of_gt hk)]

/-- C4 counterexample: the claim quantifies over every present cumulative
series, but on the empty present series (the default `np.array([])` that
`empty_data_list` places on `T` and `D`) the output is `[nan]`: length 1,
input length 0. -/
theorem C4_daily_empty_cex :
    get_daily_counts dataEmptyT Sub.T = some [none] ∧
    (daily_series ([] : MSeries)).length ≠ ([] : MSeries).length := by
  constructor
  · rfl
  · simp [daily_series]

/-- C4 witness: the differencing on `[1, 3, 3, 6]` (a zero diff at `t = 2`)
and the constant-increment series `[0, 5, 10]`. -/
theorem C4_get_daily_counts_witness :
    get_daily_counts dataW4 Sub.T =
      some (daily_series [some 1, some 3, some 3, some 6]) ∧
    (daily_series [some 1, some 3, some 3, some 6])[1]? = some (some 2) ∧
    (daily_series [some 1, some 3, some 3, some 6])[2]? = some none ∧
    (daily_series [some 0, some 5, some 10])[1]? = some (some 5) ∧
    (daily_series [some 0, some 5, some 10])[2]? = some (some 5) := by
  have h4 := C4_get_daily_counts dataW4 Sub.T [some 1, some 3, some 3, some 6]
    (Or.inl rfl) (by simp [dataW4]) (by simp)
  have h5 := C4_get_daily_counts dataW5 Sub.D [some 0, some 5, some 10]
    (Or.inr rfl) (by simp [dataW5]) (by simp)
  have hconst : ∀ t : ℕ, t + 1 < ([some 0, some 5, some 10] : MSeries).length →
      ∃ u v : ℚ, ([some 0, some 5, some 10] : MSeries)[t+1]? = some (some u) ∧
        ([some 0, some 5, some 10] : MSeries)[t]? = some (some v) ∧ u - v = 5 := by
    intro t ht
    simp only [List.length_cons, List.length_nil] at ht
    have ht2 : t ≤ 1 := by omega
    interval_cases t
    · exact ⟨5, 0, rfl, rfl, by norm_num⟩
    · exact ⟨10, 5, rfl, rfl, by norm_num⟩
  refine ⟨h4.1, ?_, ?_, ?_, ?_⟩
  · have h := h4.2.2.2.1 1 3 1 (by omega) rfl rfl
    rw [h, if_neg (by norm_num)]
    norm_num
  · have h := h4.2.2.2.1 2 3 3 (by omega) rfl rfl
    rw [h, if_pos (by norm_num)]
  · exact h5.2.2.2.2 5 (by norm_num) hconst 1 (by omega) (by simp)
  · exact h5.2.2.2.2 5 (by norm_num) hconst 2 (by omega) (by simp)

/-- `interp` is exact at every knot of a strictly increasing table. -/
theorem interp_knot (tbl : List (ℚ × ℚ))
    (hs : List.Pairwise (fun a b : ℚ × ℚ => a.1 < b.1) tbl) (k v : ℚ)
    (hm : (k, v) ∈ tbl) : interp k tbl = v := by
  induction tbl with
  | nil => cases hm
  | cons p rest ih =>
    cases rest with
    | nil =>
      rcases List.mem_singleton.mp hm with heq
      rw [← heq]
      rfl
    | cons q r2 =>
      have hpair := List.pairwise_cons.mp hs
      rcases List.mem_cons.mp hm with heq | hm2
      · rw [← heq]
        simp [interp]
      · have hpk : p.1 < k := by
          have := hpair.1 (k, v) hm2
          simpa using this
        have hpq : p.1 < q.1 := hpair.1 q (List.mem_cons_self q r2)
        simp only [interp]
        rw [if_neg (not_le.mpr hpk)]
        rcases List.mem_cons.mp hm2 with heq2 | hm3
        · have hkq : k = q.1 := by rw [← heq2]
          have hvq : v = q.2 := by rw [← heq2]
          rw [if_pos (le_of_eq hkq), hkq, hvq, mul_div_assoc,
            div_self (sub_ne_zero.mpr hpq.ne'), mul_one]
          ring
        · have hqk : q.1 < k := by
            have := (List.pairwise_cons.mp hpair.2).1 (k, v) hm3
            simpa using this
          rw [if_neg (not_le.mpr hqk)]
          exact ih hpair.2 hm2

/-- `interp` clamps to the first table value left of the domain. -/
theorem interp_clamp_low (tbl : List (ℚ × ℚ)) (x : ℚ) (p0 : ℚ × ℚ)
    (hhead : tbl.head? = some p0) (hx : x ≤ p0.1) : interp x tbl = p0.2 := by
  cases tbl with
  | nil => cases hhead
  | cons p rest =>
    have hp : p = p0 := by simpa using hhead
    subst hp
    cases rest with
    | nil => rfl
    | cons q r2 =>
      simp only [interp]
      rw [if_pos hx]

/-- Every first component of a table sorted strictly increasing is bounded
by the first component of its last entry. -/
theorem fst_le_getLast_of_pairwise (tbl : List (ℚ × ℚ))
    (hs : List.Pairwise (fun a b : ℚ × ℚ => a.1 < b.1) tbl) (pl : ℚ × ℚ)
    (hlast : tbl.getLast? = some pl) : ∀ p ∈ tbl, p.1 ≤ pl.1 := by
  induction tbl with
  | nil => cases hlast
  | cons p rest ih =>
    cases rest with
    | nil =>
      have hp : p = pl := by simpa using hlast
      subst hp
      intro p' hp'
      rcases List.mem_singleton.mp hp' with rfl
      exact le_refl _
    | cons q r2 =>
      rw [List.getLast?_cons_cons] at hlast
      have hpair := List.pairwise_cons.mp hs
      intro p' hp'
      rcases List.mem_cons.mp hp' with rfl | hm2
      · have hq : q.1 ≤ pl.1 :=
          ih hpair.2 hlast q (List.mem_cons_self q r2)
        exact le_of_lt (lt_of_lt_of_le (hpair.1 q (List.mem_cons_self q r2)) hq)
      · exact ih hpair.2 hlast p' hm2

/-- `interp` clamps to the last table value right of all knots. -/
theorem interp_clamp_high (tbl : List (ℚ × ℚ)) (x : ℚ) (pl : ℚ × ℚ)
    (hlast : tbl.getLast? = some pl) (h : ∀ p ∈ tbl, p.1 < x) :
    interp x tbl = pl.2 := by
  induction tbl with
  | nil => cases hlast
  | cons p rest ih =>
    cases rest with
    | nil =>
      have hp : p = pl := by simpa using hlast
      subst hp
      rfl
    | cons q r2 =>
      rw [List.getLast?_cons_cons] at hlast
      simp only [interp]
      rw [if_neg (not_le.mpr (h p (List.mem_cons_self _ _))),
        if_neg (not_le.mpr (h q (List.mem_cons_of_mem p (List.mem_cons_self q r2))))]
      exact ih hlast (fun p' hp' => h p' (List.mem_cons_of_mem p hp'))

/-- C5: `growth_rate_to_R0` maps each present `T`/`D` channel elementwise
through `np.interp` against the calibration table: a valid element becomes
its piecewise-linear interpolation, a value at a knot maps exactly to the
knot's R0, values left (right) of the table's domain clamp to the first
(last) R0 value, invalid elements stay invalid, and absent channels stay
absent.  The table itself (`scripts/mapping`, not in the sources) is
modelled from the spec as an arbitrary strictly monotone knot list. -/
theorem C5_growth_rate_to_R0 (tbl : List (ℚ × ℚ))
    (hs : List.Pairwise (fun a b : ℚ × ℚ => a.1 < b.1) tbl) :
    (∀ (data : Sub → Option (List GElem)) (ch : Sub) (s : List GElem),
      (ch = Sub.T ∨ ch = Sub.D) → data ch = some s →
      growth_rate_to_R0 tbl data ch = some (interp_series tbl s)) ∧
    (∀ (s : List GElem) (i : ℕ) (e : GElem), s[i]? = some e →
      (interp_series tbl s)[i]? = some (e.val.map (fun x => interp x tbl))) ∧
    (∀ (s : List GElem) (i : ℕ) (e : GElem), s[i]? = some e → e.val = none →
      (interp_series tbl s)[i]? = some none) ∧
    (∀ k v : ℚ, (k, v) ∈ tbl → interp k tbl = v) ∧
    (∀ (x : ℚ) (p0 : ℚ × ℚ), tbl.head? = some p0 → x ≤ p0.1 →
      interp x tbl = p0.2) ∧
    (∀ (x : ℚ) (pl : ℚ × ℚ), tbl.getLast? = some pl → pl.1 < x →
      interp x tbl = pl.2) ∧
    (∀ (data : Sub → Option (List GElem)) (ch : Sub), data ch = none →
      growth_rate_to_R0 tbl data ch = none) := by
  have helem : ∀ (s : List GElem) (i : ℕ) (e : GElem), s[i]? = some e →
      (interp_series tbl s)[i]? = some (e.val.map (fun x => interp x tbl)) := by
    intro s i e he
    simp [interp_series, he]
  refine ⟨?_, helem, ?_, interp_knot tbl hs, interp_clamp_low tbl, ?_, ?_⟩
  · intro data ch s hch hdata
    rcases hch with h | h <;> subst h <;> simp [growth_rate_to_R0, hdata]
  · intro s i e he hval
    have h := helem s i e he
    rw [hval] at h
    simpa using h
  · intro x pl hlast hgt
    exact interp_clamp_high tbl x pl hlast (fun p hp =>
      lt_of_le_of_lt (fst_le_getLast_of_pairwise tbl hs pl hlast p hp) hgt)
  · intro data ch h
    simp only [growth_rate_to_R0, h]
    split <;> simp

/-- C5 witness: the three-knot table `[(0,1), (2,5), (3,9)]` - exactness at
the middle knot, clamping on both sides, NaN propagation and the channel
equation on a concrete structure. -/
theorem C5_growth_rate_to_R0_witness :
    growth_rate_to_R0 tblW gdataW Sub.T =
      some (interp_series tblW
        [{ val := some 2, mask := false }, { val := none, mask := false }]) ∧
    interp 2 tblW = 5 ∧
    interp (-1) tblW = 1 ∧
    interp 7 tblW = 9 ∧
    (interp_series tblW
      [{ val := some 2, mask := false }, { val := none, mask := false }])[1]? =
      some none := by
  have hs : List.Pairwise (fun a b : ℚ × ℚ => a.1 < b.1) tblW := by
    norm_num [tblW, List.pairwise_cons]
  have h := C5_growth_rate_to_R0 tblW hs
  refine ⟨?_, ?_, ?_, ?_, ?_⟩
  · exact h.1 gdataW Sub.T _ (Or.inl rfl) (by simp [gdataW])
  · exact h.2.2.2.1 2 5 (by simp [tblW])
  · exact h.2.2.2.2.1 (-1) (0, 1) (by simp [tblW]) (by norm_num)
  · exact h.2.2.2.2.2.1 7 (3, 9) (by simp [tblW]) (by norm_num)
  · exact h.2.2.1 _ 1 { val := none, mask := false } rfl rfl

/-- The masked array of `get_growth_rate` before padding and filling has
`x.length - step` computed entries. -/
theorem gr_masked_length (flog : ℚ → Option ℚ) (x : MSeries) (step : ℕ) :
    (gr_masked flog x step).length = (x.length - step) + step := by
  simp only [gr_masked, List.length_append, List.length_map, List.length_zip,
    List.length_replicate, maLog, List.length_take, List.length_drop]
  omega

/-- `get_growth_rate` output length: the input length when the input has at
least `step` entries, `step` otherwise. -/
theorem gr_series_length (flog : ℚ → Option ℚ) (x : MSeries) (step : ℕ) :
    (gr_series flog x step).length = max x.length step := by
  simp only [gr_series, maFillMasked, List.length_map, gr_masked_length]
  omega

/-- `get_growth_rate` entry at a computed position with both endpoints
present: the (possibly invalid) masked log-difference, with the mask cleared
by the final fill. -/
theorem gr_series_getElem (flog : ℚ → Option ℚ) (x : MSeries) (step t : ℕ)
    (o1 o2 : Option ℚ) (ht : t + step < x.length) (h1 : x[t + step]? = some o1)
    (h2 : x[t]? = some o2) :
    (gr_series flog x step)[t]? =
      some { val := maSubDiv step (o1.bind flog) (o2.bind flog), mask := false } := by
  have htlt : t < x.length - step := by omega
  have hzlen :
      ((maLog flog (x.drop step)).zip
        (maLog flog (x.take (x.length - step)))).length = x.length - step := by
    simp only [List.length_zip, maLog, List.length_map, List.length_drop,
      List.length_take]
    omega
  have h1' : x[step + t]? = some o1 := by rwa [Nat.add_comm]
  have hz : ((maLog flog (x.drop step)).zip
      (maLog flog (x.take (x.length - step))))[t]? =
      some (o1.bind flog, o2.bind flog) := by
    rw [getElem?_zip']
    have hd : (maLog flog (x.drop step))[t]? = some (o1.bind flog) := by
      simp only [maLog, List.getElem?_map, List.getElem?_drop, h1']
      rfl
    have htk : (maLog flog (x.take (x.length - step)))[t]? =
        some (o2.bind flog) := by
      simp only [maLog, List.getElem?_map, List.getElem?_take]
      rw [if_pos htlt, h2]
      rfl
    rw [hd, htk]
    rfl
  have hA : (((maLog flog (x.drop step)).zip
      (maLog flog (x.take (x.length - step)))).map
      (fun p => ({ val := maSubDiv step p.1 p.2,
                   mask := (maSubDiv step p.1 p.2).isNone } : GElem)))[t]? =
      some { val := maSubDiv step (o1.bind flog) (o2.bind flog),
             mask := (maSubDiv step (o1.bind flog) (o2.bind flog)).isNone } := by
    rw [List.getElem?_map, hz]
    rfl
  simp only [gr_series, maFillMasked, gr_masked, List.getElem?_map]
  rw [List.getElem?_append, if_pos (by rw [List.length_map, hzlen]; omega), hA]
  cases hd : maSubDiv step (o1.bind flog) (o2.bind flog) <;> simp

/-- `get_growth_rate` entry at a padding position: NaN datum, mask cleared. -/
theorem gr_series_trailing (flog : ℚ → Option ℚ) (x : MSeries) (step t : ℕ)
    (h1 : x.length - step ≤ t) (h2 : t < (x.length - step) + step) :
    (gr_series flog x step)[t]? = some { val := none, mask := false } := by
  have hzlen :
      (((maLog flog (x.drop step)).zip
        (maLog flog (x.take (x.length - step)))).map
        (fun p => ({ val := maSubDiv step p.1 p.2,
                     mask := (maSubDiv step p.1 p.2).isNone } : GElem))).length =
      x.length - step := by
    simp only [List.length_map, List.length_zip, maLog, List.length_drop,
      List.length_take]
    omega
  simp only [gr_series, maFillMasked, gr_masked, List.getElem?_map]
  rw [List.getElem?_append_right (by rw [hzlen]; omega)]
  rw [hzlen, List.getElem?_replicate]
  rw [if_pos (by omega)]
  rfl

/-- Every element of a filled masked array has a cleared mask. -/
theorem maFillMasked_mask_false (l : List GElem) :
    ∀ e ∈ maFillMasked l, e.mask = false := by
  intro e he
  simp only [maFillMasked, List.mem_map] at he
  obtain ⟨a, _, rfl⟩ := he
  by_cases h : a.mask = true
  · simp [h]
  · simp only [h, if_false]
    simpa using h

/-- C3 (amended): `get_growth_rate(data, lag)` computes the *forward*
log-difference - the entry at index `t` with both endpoints `x[t]` and
`x[t+lag]` valid is `(log(x[t+lag]) - log(x[t]))/lag` - and pads the
trailing `lag` positions with invalid entries; the output length is
`max(input length, lag)`, which equals the input length whenever the input
has at least `lag` entries; and on an exactly exponential series every
position before the trailing `lag` carries the constant `log r`. -/
theorem C3_get_growth_rate (flog : ℚ → Option ℚ) (x : MSeries) (step : ℕ)
    (hstep : 1 ≤ step) :
    (gr_series flog x step).length = max x.length step ∧
    (step ≤ x.length → (gr_series flog x step).length = x.length) ∧
    (∀ (t : ℕ) (o1 o2 : Option ℚ) (u v : ℚ), t + step < x.length →
      x[t + step]? = some o1 → x[t]? = some o2 →
      o1.bind flog = some u → o2.bind flog = some v →
      (gr_series flog x step)[t]? =
        some { val := some ((u - v) / (step : ℚ)), mask := false }) ∧
    (∀ t : ℕ, x.length - step ≤ t → t < max x.length step →
      (gr_series flog x step)[t]? = some { val := none, mask := false }) ∧
    (∀ (data : Sub → Option MSeries) (ch : Sub), (ch = Sub.T ∨ ch = Sub.D) →
      data ch = some x →
      get_growth_rate flog data step ch = some (gr_series flog x step)) ∧
    (∀ c r lc L : ℚ,
      (∀ k : ℕ, k < x.length → x[k]? = some (some (c * r ^ k))) →
      (∀ k : ℕ, flog (c * r ^ k) = some (lc + (k : ℚ) * L)) →
      ∀ t : ℕ, t + step < x.length →
      (gr_series flog x step)[t]? = some { val := some L, mask := false }) := by
  refine ⟨gr_series_length flog x step, ?_, ?_, ?_, ?_, ?_⟩
  · intro h
    rw [gr_series_length]
    omega
  · intro t o1 o2 u v ht h1 h2 hu hv
    have h := gr_series_getElem flog x step t o1 o2 ht h1 h2
    rw [h]
    simp [maSubDiv, hu, hv]
  · intro t h1 h2
    exact gr_series_trailing flog x step t h1 (by omega)
  · intro data ch hch hdata
    rcases hch with h | h <;> subst h <;> simp [get_growth_rate, hdata]
  · intro c r lc L hx hlog t ht
    have h1 : x[t + step]? = some (some (c * r ^ (t + step))) := hx (t + step) ht
    have h2 : x[t]? = some (some (c * r ^ t)) := hx t (by omega)
    have hu : (some (c * r ^ (t + step))).bind flog =
        some (lc + ((t + step : ℕ) : ℚ) * L) := by
      simp [hlog (t + step)]
    have hv : (some (c * r ^ t)).bind flog = some (lc + (t : ℚ) * L) := by
      simp [hlog t]
    have h := gr_series_getElem flog x step t _ _ ht h1 h2
    rw [h]
    simp only [maSubDiv, hu, hv]
    have hstep0 : ((step : ℚ)) ≠ 0 := Nat.cast_ne_zero.mpr (by omega)
    have harith : ((lc + ((t + step : ℕ) : ℚ) * L) - (lc + (t : ℚ) * L)) /
        (step : ℚ) = L := by
      push_cast
      field_simp
      ring
    rw [harith]

/-- C3 counterexample: on `[1, 1, 1, 8]` with `lag = 3` the claim's
backward-difference reading prescribes the valid value
`(log x[3] - log x[3-3])/3` at index 3 (both endpoints are valid), but the
code's entry at index 3 is invalid padding; on the one-point series `[1]`
with `lag = 3` the output length is 3, not the input length 1. -/
theorem C3_backward_difference_cex :
    idlog 8 = some 8 ∧ idlog 1 = some 1 ∧
    (gr_series idlog [some 1, some 1, some 1, some 8] 3)[3]? =
      some { val := none, mask := false } ∧
    (gr_series idlog [some 1, some 1, some 1, some 8] 3)[3]? ≠
      some { val := some (((8 : ℚ) - 1) / (3 : ℚ)), mask := false } ∧
    (gr_series idlog [some 1] 3).length ≠ ([some 1] : MSeries).length := by
  have htrail := gr_series_trailing idlog [some 1, some 1, some 1, some 8] 3 3
    (by simp) (by simp)
  refine ⟨by norm_num [idlog], by norm_num [idlog], htrail, ?_, ?_⟩
  · rw [htrail]
    simp
  · rw [gr_series_length]
    simp

/-- C3 witness: the amended statement on a concrete 5-point series with a
missing value, and the exponential law on a constant series (`r = 1`,
`log r = 0`). -/
theorem C3_get_growth_rate_witness :
    (gr_series idlog [some 1, some 2, none, some 3, some 5] 3).length = 5 ∧
    (gr_series idlog [some 1, some 2, none, some 3, some 5] 3)[0]? =
      some { val := some (((3 : ℚ) - 1) / ((3 : ℕ) : ℚ)), mask := false } ∧
    (gr_series idlog [some 1, some 2, none, some 3, some 5] 3)[4]? =
      some { val := none, mask := false } ∧
    (gr_series idlog [some 2, some 2, some 2, some 2] 3)[0]? =
      some { val := some 0, mask := false } := by
  have h := C3_get_growth_rate idlog [some 1, some 2, none, some 3, some 5] 3
    (by omega)
  have h2 := C3_get_growth_rate idlog [some 2, some 2, some 2, some 2] 3
    (by omega)
  refine ⟨?_, ?_, ?_, ?_⟩
  · exact h.2.1 (by simp)
  · exact h.2.2.1 0 (some 3) (some 1) 3 1 (by simp) rfl rfl
      (by norm_num [idlog]) (by norm_num [idlog])
  · exact h.2.2.2.1 4 (by simp) (by simp)
  · refine h2.2.2.2.2.2 2 1 2 0 ?_ ?_ 0 (by simp)
    · intro k hk
      simp only [List.length_cons, List.length_nil] at hk
      have hk2 : k ≤ 3 := by omega
      interval_cases k <;> norm_num
    · intro k
      norm_num [idlog]

/-- C10 (amended): every element returned by `get_growth_rate` has its mask
cleared (the final in-place NaN fill unmasks while it stores NaN), so
invalid positions are carried by the NaN datum alone; `growth_rate_to_R0`
rebuilds its output mask as exactly the NaN positions of the interpolated
values, so an element is invalid there exactly when the incoming datum was
NaN; and the two stages compose as stated on every present channel. -/
theorem C10_mask_nan_agreement :
    (∀ (flog : ℚ → Option ℚ) (x : MSeries) (step : ℕ),
      ∀ e ∈ gr_series flog x step, e.mask = false) ∧
    (∀ (tbl : List (ℚ × ℚ)) (s : List GElem) (i : ℕ) (e : GElem),
      s[i]? = some e →
      ((interp_series tbl s)[i]? = some none ↔ e.val = none)) ∧
    (∀ (flog : ℚ → Option ℚ) (data : Sub → Option MSeries) (step : ℕ)
      (tbl : List (ℚ × ℚ)) (ch : Sub) (x : MSeries),
      (ch = Sub.T ∨ ch = Sub.D) → data ch = some x →
      growth_rate_to_R0 tbl (get_growth_rate flog data step) ch =
        some (interp_series tbl (gr_series flog x step))) := by
  refine ⟨?_, ?_, ?_⟩
  · intro flog x step
    exact maFillMasked_mask_false _
  · intro tbl s i e he
    have hmap : (interp_series tbl s)[i]? =
        some (e.val.map (fun x => interp x tbl)) := by
      simp [interp_series, he]
    rw [hmap]
    cases hval : e.val <;> simp [hval]
  · intro flog data step tbl ch x hch hdata
    rcases hch with h | h <;> subst h <;>
      simp [growth_rate_to_R0, get_growth_rate, hdata]

/-- C10 counterexample: the claim "an element is masked exactly when its
stored value is NaN" fails on any present series - the in-place NaN fill
unmasks the positions it overwrites, so the padding entries have a NaN
datum with a cleared mask. -/
theorem C10_mask_nan_cex :
    ¬ (∀ e ∈ gr_series idlog [some 1, some 1, some 1, some 1] 3,
        (e.mask = true ↔ e.val = none)) := by
  intro h
  have hmem : ({ val := none, mask := false } : GElem) ∈
      gr_series idlog [some 1, some 1, some 1, some 1] 3 := by
    have hg := gr_series_trailing idlog [some 1, some 1, some 1, some 1] 3 1
      (by simp) (by simp)
    obtain ⟨hlt, heq⟩ := List.getElem?_eq_some.mp hg
    exact heq ▸ List.getElem_mem hlt
  have := (h _ hmem).mpr rfl
  simp at this

/-- C10 witness: the amended statement at a concrete channel structure and
table. -/
theorem C10_mask_nan_agreement_witness :
    (∀ e ∈ gr_series idlog [some 1, some 1, some 1, some 1] 3,
      e.mask = false) ∧
    ((interp_series tblW
      [{ val := some 2, mask := false }, { val := none, mask := false }])[1]? =
        some none ↔
      ({ val := (none : Option ℚ), mask := false } : GElem).val = none) ∧
    growth_rate_to_R0 tblW (get_growth_rate idlog dataW4 3) Sub.T =
      some (interp_series tblW
        (gr_series idlog [some 1, some 3, some 3, some 6] 3)) := by
  refine ⟨C10_mask_nan_agreement.1 idlog _ 3, ?_, ?_⟩
  · exact C10_mask_nan_agreement.2.1 tblW _ 1 { val := none, mask := false } rfl
  · exact C10_mask_nan_agreement.2.2 idlog dataW4 3 tblW Sub.T _ (Or.inl rfl)
      (by simp [dataW4])

/-- `np.argmin` returns an index inside a nonempty list. -/
theorem idxOfMin_lt_length : ∀ l : List ℚ, l ≠ [] → idxOfMin l < l.length := by
  intro l
  induction l with
  | nil => intro h; cases h rfl
  | cons a t ih =>
    intro _
    cases t with
    | nil => simp [idxOfMin]
    | cons b r =>
      simp only [idxOfMin]
      by_cases h : a ≤ (b :: r).getD (idxOfMin (b :: r)) 0
      · rw [if_pos h]
        simp
      · rw [if_neg h]
        have := ih (by simp)
        simp only [List.length_cons] at this ⊢
        omega

/-- The entry at `np.argmin`'s index is minimal. -/
theorem idxOfMin_le (l : List ℚ) :
    ∀ j, j < l.length → l.getD (idxOfMin l) 0 ≤ l.getD j 0 := by
  induction l with
  | nil => intro j hj; simp at hj
  | cons a t ih =>
    cases t with
    | nil =>
      intro j hj
      have hj0 : j = 0 := by simpa using Nat.lt_one_iff.mp (by simpa using hj)
      subst hj0
      simp [idxOfMin]
    | cons b r =>
      intro j hj
      simp only [idxOfMin]
      by_cases h : a ≤ (b :: r).getD (idxOfMin (b :: r)) 0
      · rw [if_pos h]
        cases j with
        | zero => simp
        | succ k =>
          simp only [List.getD_cons_zero, List.getD_cons_succ]
          exact le_trans h (ih k (by simpa using hj))
      · rw [if_neg h]
        push_neg at h
        cases j with
        | zero =>
          simp only [List.getD_cons_succ, List.getD_cons_zero]
          exact le_of_lt h
        | succ k =>
          simp only [List.getD_cons_succ]
          exact ih k (by simpa using hj)

/-- `np.argmin` breaks ties by the first occurrence: every strictly earlier
entry is strictly larger. -/
theorem idxOfMin_first (l : List ℚ) :
    ∀ j, j < idxOfMin l → l.getD (idxOfMin l) 0 < l.getD j 0 := by
  induction l with
  | nil => intro j hj; simp [idxOfMin] at hj
  | cons a t ih =>
    cases t with
    | nil => intro j hj; simp [idxOfMin] at hj
    | cons b r =>
      intro j hj
      simp only [idxOfMin] at hj ⊢
      by_cases h : a ≤ (b :: r).getD (idxOfMin (b :: r)) 0
      · rw [if_pos h] at hj
        exact absurd hj (by omega)
      · rw [if_neg h] at hj ⊢
        push_neg at h
        cases j with
        | zero =>
          simp only [List.getD_cons_succ, List.getD_cons_zero]
          exact h
        | succ k =>
          simp only [List.getD_cons_succ]
          exact ih k (by omega)

/-- C2: on a present channel (`T`, `D`, `H` or `C`) with at least one valid
element, `stair_fits` returns the triple whose early level is the mean of
the first `nb` valid values in time order, whose late level is the mean of
the last `nb` valid values, and whose breakpoint is an element of the
observed time values minimising the summed absolute deviation from the step
function (early level up to and including the breakpoint, late level after
it), masked positions excluded; among the minimisers it is the earliest in
the ascending time order.  Absent channels give an absent fit. -/
theorem C2_stair_fits (time : List ℚ) (data : Sub → Option MSeries)
    (vec : MSeries) (nb : ℕ) (ch : Sub)
    (hch : ch = Sub.T ∨ ch = Sub.D ∨ ch = Sub.H ∨ ch = Sub.C)
    (hdata : data ch = some vec) (hlen : time.length = vec.length)
    (hvalid : vec.filterMap id ≠ []) (hnb : 1 ≤ nb)
    (hsorted : List.Chain' (· < ·) time) :
    stair_fits time data nb ch = some (stair_fit_series time vec nb) ∧
    (stair_fit_series time vec nb).1 = qmean ((vec.filterMap id).take nb) ∧
    (stair_fit_series time vec nb).2.1 = qmean (lastN nb (vec.filterMap id)) ∧
    (stair_fit_series time vec nb).2.2 ∈ time ∧
    (∀ x ∈ time,
      err_function (stair_fit_series time vec nb).2.2 time vec
          (qmean ((vec.filterMap id).take nb))
          (qmean (lastN nb (vec.filterMap id))) ≤
        err_function x time vec (qmean ((vec.filterMap id).take nb))
          (qmean (lastN nb (vec.filterMap id)))) ∧
    (∀ x ∈ time,
      err_function x time vec (qmean ((vec.filterMap id).take nb))
          (qmean (lastN nb (vec.filterMap id))) =
        err_function (stair_fit_series time vec nb).2.2 time vec
          (qmean ((vec.filterMap id).take nb))
          (qmean (lastN nb (vec.filterMap id))) →
      (stair_fit_series time vec nb).2.2 ≤ x) ∧
    (∀ ch' : Sub, data ch' = none → stair_fits time data nb ch' = none) := by
  have hvne : vec ≠ [] := by
    intro h
    rw [h] at hvalid
    exact hvalid rfl
  have htne : time ≠ [] := by
    intro h
    have := hlen
    rw [h] at this
    have : vec = [] := List.length_eq_zero.mp (by simpa using this.symm)
    exact hvne this
  have herrlen : (errsOf time vec nb).length = time.length := by
    simp [errsOf]
  have hidx : idxOfMin (errsOf time vec nb) < time.length := by
    rw [← herrlen]
    exact idxOfMin_lt_length _ (by simp [errsOf, htne])
  have hdrop : (stair_fit_series time vec nb).2.2 =
      time.getD (idxOfMin (errsOf time vec nb)) 0 := rfl
  have herrsget : ∀ j, j < time.length →
      (errsOf time vec nb).getD j 0 =
        err_function (time.getD j 0) time vec
          (qmean ((vec.filterMap id).take nb))
          (qmean (lastN nb (vec.filterMap id))) := by
    intro j hj
    rw [List.getD_eq_getElem?_getD, List.getD_eq_getElem?_getD, errsOf,
      List.getElem?_map]
    rw [List.getElem?_eq_getElem hj]
    rfl
  have hpair : List.Pairwise (· < ·) time := List.chain'_iff_pairwise.mp hsorted
  refine ⟨?_, rfl, rfl, ?_, ?_, ?_, ?_⟩
  · rcases hch with h | h | h | h <;> subst h <;> simp [stair_fits, hdata]
  · rw [hdrop, List.getD_eq_getElem _ _ hidx]
    exact List.getElem_mem hidx
  · intro x hx
    obtain ⟨j, hj, hje⟩ := List.mem_iff_getElem.mp hx
    have hmin := idxOfMin_le (errsOf time vec nb) j (by rwa [herrlen])
    rw [herrsget _ hidx, herrsget _ hj] at hmin
    rw [hdrop]
    rw [List.getD_eq_getElem _ _ hj, hje] at hmin
    exact hmin
  · intro x hx heq
    obtain ⟨j, hj, hje⟩ := List.mem_iff_getElem.mp hx
    rw [hdrop, List.getD_eq_getElem _ _ hidx]
    by_cases hcmp : j < idxOfMin (errsOf time vec nb)
    · exfalso
      have hfirst := idxOfMin_first (errsOf time vec nb) j hcmp
      rw [herrsget _ hidx, herrsget _ hj] at hfirst
      rw [List.getD_eq_getElem _ _ hj, hje] at hfirst
      rw [hdrop] at heq
      rw [heq] at hfirst
      exact lt_irrefl _ hfirst
    · rcases Nat.lt_or_ge (idxOfMin (errsOf time vec nb)) j with hlt | hge
      · have := List.pairwise_iff_getElem.mp hpair _ _ hidx hj hlt
        rw [← hje]
        exact le_of_lt this
      · have hjeq : j = idxOfMin (errsOf time vec nb) := by omega
        subst hjeq
        exact le_of_eq (by rw [← hje])
  · intro ch' h
    simp only [stair_fits, h]
    split <;> simp

/-- C2 witness: the step series `[4, 4, 1]` over times `[0, 1, 2]` with one
edge point - levels 4 and 1, breakpoint inside the observed range. -/
theorem C2_stair_fits_witness :
    stair_fits [0, 1, 2] stairDataW 1 Sub.T =
      some (stair_fit_series [0, 1, 2] [some 4, some 4, some 1] 1) ∧
    (stair_fit_series [0, 1, 2] [some 4, some 4, some 1] 1).1 = 4 ∧
    (stair_fit_series [0, 1, 2] [some 4, some 4, some 1] 1).2.1 = 1 ∧
    (stair_fit_series [0, 1, 2] [some 4, some 4, some 1] 1).2.2 ∈
      ([0, 1, 2] : List ℚ) ∧
    stair_fits [0, 1, 2] stairDataW 1 Sub.D = none := by
  have h := C2_stair_fits [0, 1, 2] stairDataW [some 4, some 4, some 1] 1 Sub.T
    (Or.inl rfl) (by simp [stairDataW]) (by simp) (by simp) (by omega)
    (by norm_num [List.chain'_cons])
  refine ⟨h.1, ?_, ?_, h.2.2.2.1, ?_⟩
  · rw [h.2.1,
      show List.filterMap id [some (4 : ℚ), some 4, some 1] = [4, 4, 1] from rfl]
    norm_num [qmean]
  · rw [h.2.2.1,
      show List.filterMap id [some (4 : ℚ), some 4, some 1] = [4, 4, 1] from rfl]
    norm_num [qmean, lastN]
  · exact h.2.2.2.2.2.2 Sub.D (by simp [stairDataW])

/-- C9 (amended with nonemptiness): on every *nonempty* population table,
`Fitter.fit` returns a `{tMin, initialCases, r0}` record or nothing, never
an error; `fit_cumulative` returns nothing (rather than raising) whenever
fewer than 5 data points have counts strictly between 3 and 500; when that
holds for both the death and the case column - or neither fitted slope is
positive - the overall result is nothing; and deaths are fitted first: a
death fit with positive slope is used and the case column is never
consulted.  (On the *empty* table the column slicing raises `IndexError`
before any fit - see the counterexample.  The date formatting of `tMin` and
the parsing of input dates are the `datetime` library, embedded as
`from_ms`/pre-parsed ordinals.) -/
theorem C9_fitter_fit (flog : ℚ → ℚ) (pop : List CPoint) (hne : pop ≠ []) :
    (∀ pts : List (ℚ × Option ℚ),
      (goodOf pts).length < 5 → fit_cumulative flog pts = none) ∧
    ((goodOf (Fitter.deathsCol pop)).length < 5 →
      (goodOf (Fitter.casesCol pop)).length < 5 →
      Fitter.fit flog pop = Except.ok none) ∧
    ((∀ p : RegRes, fit_cumulative flog (Fitter.deathsCol pop) = some p →
        p.slope ≤ 0) →
     (∀ p : RegRes, fit_cumulative flog (Fitter.casesCol pop) = some p →
        p.slope ≤ 0) →
      Fitter.fit flog pop = Except.ok none) ∧
    (∀ p : RegRes, fit_cumulative flog (Fitter.deathsCol pop) = some p →
      0 < p.slope →
      Fitter.fit flog pop = Except.ok (some
        { tMin := from_ms ((flog (10 * Fitter.fatality_rate) - p.intercept) /
            p.slope - Fitter.delay),
          initialCases := Fitter.cases_on_tMin,
          r0 := Fitter.slope_to_r0 p.slope })) := by
  obtain ⟨a, t, rfl⟩ : ∃ a t, pop = a :: t := by
    cases pop with
    | nil => exact absurd rfl hne
    | cons a t => exact ⟨a, t, rfl⟩
  have hcum : ∀ pts : List (ℚ × Option ℚ),
      (goodOf pts).length < 5 → fit_cumulative flog pts = none := by
    intro pts h
    rw [fit_cumulative, if_neg (by omega), if_neg (by omega)]
  have hcase : (∀ p : RegRes,
      fit_cumulative flog (Fitter.casesCol (a :: t)) = some p →
      p.slope ≤ 0) → Fitter.caseTry flog (a :: t) = none := by
    intro hc
    cases hcc : fit_cumulative flog (Fitter.casesCol (a :: t)) with
    | none => simp [Fitter.caseTry, hcc]
    | some p =>
      simp only [Fitter.caseTry, hcc]
      rw [if_neg (not_lt.mpr (hc p hcc))]
  refine ⟨hcum, ?_, ?_, ?_⟩
  · intro hd hc
    simp [Fitter.fit, Fitter.caseTry, hcum _ hd, hcum _ hc]
  · intro hd hc
    cases hdd : fit_cumulative flog (Fitter.deathsCol (a :: t)) with
    | none => simp [Fitter.fit, hdd, hcase hc]
    | some p =>
      simp only [Fitter.fit, hdd]
      rw [if_neg (not_lt.mpr (hd p hdd))]
      rw [hcase hc]
  · intro p hp hpos
    simp only [Fitter.fit, hp]
    rw [if_pos hpos]

/-- C9 counterexample: on the empty population table both channels have
fewer than 5 points with counts strictly between 3 and 500, yet the result
is not absent - the column slicing on the 1-dimensional empty array raises
`IndexError` before any fit, so "a record or absent, rather than an
exception" fails there. -/
theorem C9_empty_pop_cex :
    (goodOf (Fitter.deathsCol [])).length < 5 ∧
    (goodOf (Fitter.casesCol [])).length < 5 ∧
    Fitter.fit id [] = Except.error "IndexError" := by
  exact ⟨by norm_num [goodOf, Fitter.deathsCol, List.filterMap],
    by norm_num [goodOf, Fitter.casesCol, List.filterMap], rfl⟩

/-- C9 witness: a one-row population whose counts fall outside the band, so
both columns have zero usable points and the fit is absent without an
error. -/
theorem C9_fitter_fit_witness :
    (goodOf (Fitter.deathsCol popW)).length < 5 ∧
    (goodOf (Fitter.casesCol popW)).length < 5 ∧
    Fitter.fit id popW = Except.ok none := by
  have hd : (goodOf (Fitter.deathsCol popW)).length < 5 := by
    norm_num [goodOf, Fitter.deathsCol, popW, orNaN, List.filterMap]
  have hc : (goodOf (Fitter.casesCol popW)).length < 5 := by
    norm_num [goodOf, Fitter.casesCol, popW, orNaN, List.filterMap]
  exact ⟨hd, hc, (C9_fitter_fit id popW (by simp [popW])).2.1 hd hc⟩

end Covid19
